import Mathlib

/-
Verification development for the c2py / autocxxpy code base.

The Python sources are shallowly embedded as executable Lean definitions:

* `src/autocxxpy/core/types/cxx_types.py` — the declarator type algebra on
  strings (`remove_cvref`, `is_pointer_type`, `array_base`, ...).  Strings are
  modelled as `String`, with the character-level work done on `List Char`.
  Python's `str.replace(pat, "")` (a single left-to-right scan that does not
  rescan the produced text) is modelled by `removeOcc`; `str.strip()` by
  `pstrip`; `str.endswith`/`startswith` by `List.isSuffixOf`/`List.isPrefixOf`
  on `.data`.  A Python function that can raise (`rindex`, `int`) is modelled
  with `Except String` where `.error "ValueError"` stands for the raise.
* `src/autocxxpy/types/parser_types.py` — the symbol model (`Symbol.full_name`,
  `Namespace`/`Class` member maps, `Namespace.extend`).  Python dicts are
  modelled as association lists `List (String × α)` with Python's assignment
  semantics (replace in place, else append) and `dict.update` as a fold.
* `src/c2py/core/cxxparser.py` — the union-declaration policy of
  `CXXParser._process_class_child` (dispatch on scoped/anonymous).
* `src/c2py/core/wrappers.py` — the signature-transformation rules
  (`InoutArgumentWrapper`, `OutputArgumentWrapper`, `BaseFunctionWrapper`).
  The helpers imported there from `c2py/type_manager.py` are not part of the
  sources and are modelled from the spec (each such definition is marked
  `Modelled from the spec:`).
-/

set_option autoImplicit false

namespace C2py

/-! ## Character-list helpers (Python string primitives) -/

/-- Python whitespace test used by `str.strip()` (space, tab, newline, CR). -/
def wsB (c : Char) : Bool := c.isWhitespace

/-- Left trim: Python `lstrip`-part of `str.strip()`. -/
def trimL (l : List Char) : List Char := l.dropWhile wsB

/-- Right trim: Python `rstrip`-part of `str.strip()`. -/
def trimR (l : List Char) : List Char := (l.reverse.dropWhile wsB).reverse

/-- Python `str.strip()`: drop leading then trailing whitespace. -/
def pstrip (l : List Char) : List Char := trimR (trimL l)

/-- One bounded pass of Python `s.replace(pat, "")`: scan left to right, on a
match skip past the matched region and continue (no rescan of emitted text).
The fuel argument (instantiated with the list length) makes the recursion
structural; it never runs out because a match consumes at least one char. -/
def removeOccFuel (pat : List Char) : Nat → List Char → List Char
  | _, [] => []
  | 0, l => l
  | fuel + 1, c :: rest =>
    if pat.isPrefixOf (c :: rest) then
      removeOccFuel pat fuel ((c :: rest).drop pat.length)
    else
      c :: removeOccFuel pat fuel rest

/-- Python `s.replace(pat, "")` for a non-empty pattern. -/
def removeOcc (pat : List Char) (l : List Char) : List Char :=
  removeOccFuel pat l.length l

/-- Python substring test `pat in s`. -/
def hasSub (pat : List Char) : List Char → Bool
  | [] => pat.isPrefixOf []
  | c :: rest => pat.isPrefixOf (c :: rest) || hasSub pat rest

/-- Index of the last occurrence of a character; `none` models the
`ValueError` raised by Python `str.rindex` when absent. -/
def rindexChar (c : Char) : List Char → Option Nat
  | [] => none
  | x :: rest =>
    match rindexChar c rest with
    | some j => some (j + 1)
    | none => if x == c then some 0 else none

/-- Python `s.split(',')`: split on every comma, yielding `[""]` for `""`. -/
def splitComma : List Char → List (List Char)
  | [] => [[]]
  | c :: rest =>
    if c = ',' then [] :: splitComma rest
    else
      match splitComma rest with
      | h :: t => (c :: h) :: t
      | [] => [[c]]

/-- Regex `\w` of `_FUNCTION_POINTER_RE` (ASCII reading). -/
def isWordChar (c : Char) : Bool := c.isAlphanum || c == '_'

/-! ## Declarator type algebra (`src/autocxxpy/core/types/cxx_types.py`)

The `functools.lru_cache` memoization decorators are pure caching and are
dropped; each function is the pure string function the Python body computes. -/

/-- First phase of `remove_cvref`: `if t.endswith(" const"): t = t[:-6]` then
`if t.endswith("const"): t = t[:-5]`. -/
def rcvSuffixTrim (l : List Char) : List Char :=
  let l1 := if (" const".data).isSuffixOf l then l.take (l.length - 6) else l
  if ("const".data).isSuffixOf l1 then l1.take (l1.length - 5) else l1

/-- Kernel of `remove_cvref`: strip one trailing `" const"`, then one trailing
`"const"`, then remove every `"const "`, `"volatile "` and `"&"`, then strip
whitespace (the exact operation order of the Python body). -/
def rcvAux (l : List Char) : List Char :=
  pstrip (removeOcc ("&".data) (removeOcc ("volatile ".data)
    (removeOcc ("const ".data) (rcvSuffixTrim l))))

/-- `remove_cvref(t)` from `cxx_types.py`. -/
def remove_cvref (t : String) : String := ⟨rcvAux t.data⟩

/-- `is_pointer_type(t)`: `remove_cvref(t).endswith('*')`. -/
def is_pointer_type (t : String) : Bool := ("*".data).isSuffixOf (remove_cvref t).data

/-- `is_const_type(t)`: trailing `const` for pointer types, else a leading
`const ` qualifier. -/
def is_const_type (t : String) : Bool :=
  if is_pointer_type t then ("const".data).isSuffixOf t.data
  else ("const ".data).isPrefixOf t.data

/-- `is_std_vector(t)`: `t.startswith("std::vector<")`. -/
def is_std_vector (t : String) : Bool := ("std::vector<".data).isPrefixOf t.data

/-- `is_array_type(t)`: container sugar or `t.endswith(']')`. -/
def is_array_type (t : String) : Bool := is_std_vector t || ("]".data).isSuffixOf t.data

/-- `is_reference_type(t)`: Python `"&" in t`. -/
def is_reference_type (t : String) : Bool := hasSub ("&".data) t.data

/-- `pointer_base(t)`: `remove_cvref(t)[:-1].strip()`. -/
def pointer_base (t : String) : String := ⟨pstrip (remove_cvref t).data.dropLast⟩

/-- `reference_base(t)`: `remove_cvref(t)`. -/
def reference_base (t : String) : String := remove_cvref t

/-- `array_base(t)`: element type of an array declarator.  The Python body
calls `t.rindex("[")` for non-sugar input, which raises `ValueError` when no
`[` is present (as its own docstring states); the raise is modelled by
`Except.error "ValueError"`. -/
def array_base (t : String) : Except String String :=
  if is_std_vector t then Except.ok ⟨pstrip ((t.data.drop 12).dropLast)⟩
  else
    match rindexChar '[' t.data with
    | some i => Except.ok ⟨pstrip (t.data.take i)⟩
    | none => Except.error "ValueError"

/-- `array_count_str(t)`: the text between the last `[` and the final char;
raises (`.error`) when `[` is absent, like `array_base`. -/
def array_count_str (t : String) : Except String String :=
  match rindexChar '[' t.data with
  | some i => Except.ok ⟨(t.data.drop (i + 1)).dropLast⟩
  | none => Except.error "ValueError"

/-- Python `int(s)` on the count text: optional sign after whitespace strip,
then a non-empty digit run; anything else raises `ValueError`. -/
def parseIntLit (l : List Char) : Except String Int :=
  let l := pstrip l
  let core : List Char → Except String Int := fun ds =>
    if ds ≠ [] && ds.all Char.isDigit then
      Except.ok (ds.foldl (fun a c => a * 10 + (c.toNat - '0'.toNat)) 0 : Nat)
    else Except.error "ValueError"
  match l with
  | '-' :: ds => (core ds).map (fun n => -n)
  | '+' :: ds => core ds
  | ds => core ds

/-- `array_count(t)`: the parsed count, `0` when the brackets are empty. -/
def array_count (t : String) : Except String Int :=
  match array_count_str t with
  | Except.error e => Except.error e
  | Except.ok s => if s.data = [] then Except.ok 0 else parseIntLit s.data

/-- Whether a modelled Python call raised (`Except.error` = raise). -/
def exceptIsError {ε α : Type} : Except ε α → Bool
  | .error _ => true
  | .ok _ => false

/-- The pieces captured by `_FUNCTION_POINTER_RE`, i.e. the `Function` record
built by `function_pointer_type_info`: return type, optional calling
convention, symbol name, and the comma-split argument types (names empty). -/
structure FPInfo where
  ret_type : String
  calling_convention : Option String
  name : String
  args : List String
  deriving DecidableEq

/-- Deterministic reading of `re.match` for
`(\w+) +\((\w*)\*(\w*)\)\((.*)\)`: a word run, a space run, `(`, a word run,
`*`, a word run, `)(`, then — since `.` excludes newlines and is greedy —
everything up to the last `)` of the current line.  The regex is
deterministic because `\w`, the space and the punctuation cannot overlap. -/
def fpParse (l : List Char) : Option (List Char × List Char × List Char × List Char) :=
  let (g1, r1) := l.span isWordChar
  if g1.isEmpty then none else
  let (sp, r2) := r1.span (· == ' ')
  if sp.isEmpty then none else
  match r2 with
  | '(' :: r3 =>
    let (g2, r4) := r3.span isWordChar
    (match r4 with
     | '*' :: r5 =>
       let (g3, r6) := r5.span isWordChar
       (match r6 with
        | ')' :: '(' :: r7 =>
          let line := r7.takeWhile (· ≠ '\n')
          (match rindexChar ')' line with
           | some i => some (g1, g2, g3, line.take i)
           | none => none)
        | _ => none)
     | _ => none)
  | _ => none

/-- `is_function_pointer_type(t)`: truthiness of the `re.match` result. -/
def is_function_pointer_type (t : String) : Bool := (fpParse t.data).isSome

/-- `function_pointer_type_info(t)`: `None` when the regex does not match,
else the populated record (empty calling convention becomes `None`, each
argument text is stripped). -/
def function_pointer_type_info (t : String) : Option FPInfo :=
  match fpParse t.data with
  | none => none
  | some (g1, g2, g3, g4) =>
    some { ret_type := ⟨g1⟩
           calling_convention := if g2.isEmpty then none else some ⟨g2⟩
           name := ⟨g3⟩
           args := (splitComma g4).map (fun a => ⟨pstrip a⟩) }

/-! ## Python dicts as association lists

`src/autocxxpy/types/parser_types.py` keeps namespace members in Python
dicts.  A dict is modelled as a `List (String × α)` in insertion order. -/

/-- Whether a key is present: `k in d`. -/
def keyMem {α : Type} (k : String) (d : List (String × α)) : Bool :=
  d.any (fun p => p.1 == k)

/-- Python `d[k] = v`: replace the entry in place if the key exists, else
append at the end (insertion order semantics of `dict.__setitem__`). -/
def dictInsertOne {α : Type} : List (String × α) → String × α → List (String × α)
  | [], kv => [kv]
  | p :: rest, kv => if p.1 == kv.1 then kv :: rest else p :: dictInsertOne rest kv

/-- Python `d.update(other)`: assign every entry of `other` in order. -/
def dictUpdate {α : Type} (d other : List (String × α)) : List (String × α) :=
  other.foldl dictInsertOne d

/-- Python `d.get(k)` / `d[k]` lookup (first entry with the key). -/
def dictLookup {α : Type} (k : String) (d : List (String × α)) : Option α :=
  (d.find? (fun p => p.1 == k)).map (·.2)

/-- No key occurs twice (always true of a real Python dict). -/
def nodupKeysB {α : Type} : List (String × α) → Bool
  | [] => true
  | kv :: rest => !keyMem kv.1 rest && nodupKeysB rest

/-- Every key of the first dict is absent from the second. -/
def disjointKeysB {α : Type} (d1 : List (String × α)) (d2 : List (String × α)) : Bool :=
  d1.all (fun p => !keyMem p.1 d2)

/-! ## Symbol model (`src/autocxxpy/types/parser_types.py`) -/

/-- `Symbol`: name plus back-reference to the owning parent.  `root n` is a
symbol with `parent = None`; `child p n` one with `parent = p`.  Only the
fields used by `full_name` are kept (location dropped). -/
inductive CxxSymbol : Type where
  | root (name : String)
  | child (parent : CxxSymbol) (name : String)

/-- `Symbol.full_name`: the name alone at the top, else the parent's full
name joined with `::`. -/
def CxxSymbol.full_name : CxxSymbol → String
  | .root n => n
  | .child p n => p.full_name ++ "::" ++ n

/-- Whether the parent chain ends at a root whose name is the empty string
(the global namespace created by `CXXParser.parse`). -/
def CxxSymbol.rootedAtEmptyB : CxxSymbol → Bool
  | .root n => n == ""
  | .child p _ => p.rootedAtEmptyB

/-- `Variable` from `parser_types.py` (the `value: Any` field is dropped;
`literal` is an optional string as in the source). -/
structure CVariable where
  name : String
  type : String
  const : Bool := false
  static : Bool := false
  literal : Option String := none
  deriving DecidableEq

/-- `Typedef` from `parser_types.py`. -/
structure CTypedef where
  name : String
  target : String
  deriving DecidableEq

/-- `Enum` from `parser_types.py` (`values` is the ordered member map). -/
structure CEnum where
  name : String
  type : String
  values : List (String × CVariable) := []
  is_strong_typed : Bool := false
  deriving DecidableEq

/-- `Function`/`Method` from `parser_types.py`, restricted to the fields the
claims touch. -/
structure CFunction where
  name : String
  ret_type : String
  args : List CVariable := []
  calling_convention : String := "__cdecl"
  deriving DecidableEq

/-- `Namespace` and its subclass `Class` from `parser_types.py`, merged into
one type (`Class extends Namespace` in the source).  Member maps are the
dicts of the source: enums, typedefs, classes, template_classes, variables,
name-keyed overload lists of functions, and sub-namespaces; the `Class`
extras are the base-class list, constructors, optional destructor and the
polymorphism flag. -/
inductive CxxClass : Type where
  | mk (name : String)
       (enums : List (String × CEnum))
       (typedefs : List (String × CTypedef))
       (classes : List (String × CxxClass))
       (template_classes : List (String × CxxClass))
       (vars : List (String × CVariable))
       (functions : List (String × List CFunction))
       (namespaces : List (String × CxxClass))
       (super : List CxxClass)
       (constructors : List CFunction)
       (destructor : Option CFunction)
       (is_polymorphic : Bool)

def CxxClass.name : CxxClass → String
  | .mk n .. => n

def CxxClass.enums : CxxClass → List (String × CEnum)
  | .mk _ e .. => e

def CxxClass.typedefs : CxxClass → List (String × CTypedef)
  | .mk _ _ t .. => t

def CxxClass.classes : CxxClass → List (String × CxxClass)
  | .mk _ _ _ c .. => c

def CxxClass.template_classes : CxxClass → List (String × CxxClass)
  | .mk _ _ _ _ tc .. => tc

def CxxClass.vars : CxxClass → List (String × CVariable)
  | .mk _ _ _ _ _ v .. => v

def CxxClass.functions : CxxClass → List (String × List CFunction)
  | .mk _ _ _ _ _ _ f .. => f

def CxxClass.namespaces : CxxClass → List (String × CxxClass)
  | .mk _ _ _ _ _ _ _ ns .. => ns

/-- Replace the `classes` map (used to model `class_.classes[k] = v`). -/
def CxxClass.setClasses : CxxClass → List (String × CxxClass) → CxxClass
  | .mk n e t _ tc v f ns sup cons des poly, c => .mk n e t c tc v f ns sup cons des poly

/-- `Namespace.extend(other)`: `dict.update` the six member maps (enums,
typedefs, classes, variables, functions, namespaces) with `other`'s; exactly
as in the source, `template_classes` and the `Class`-only fields are left
untouched. -/
def CxxClass.extend : CxxClass → CxxClass → CxxClass
  | .mk n e t c tc v f ns sup cons des poly, other =>
    .mk n (dictUpdate e other.enums) (dictUpdate t other.typedefs)
      (dictUpdate c other.classes) tc (dictUpdate v other.vars)
      (dictUpdate f other.functions) (dictUpdate ns other.namespaces)
      sup cons des poly

/-! ## Union policy of `CXXParser._process_class_child`
(`src/c2py/core/cxxparser.py`, `UNION_DECL` branch)

`scope_name` is the result of `_union_scope_name` (the name of the unique
field referencing the union, or `None`); `anonymous` is `cursor.is_anonymous()`;
`child` is the class produced by `_process_union` for the union (for an
anonymous union its name is the synthesized `decltype(<scope_name>)`).  The
global `self.objects` registry is outside the claims and not modelled. -/
def processUnionDecl (scope_name : Option String) (anonymous : Bool)
    (class_ : CxxClass) (child : CxxClass) : CxxClass :=
  match scope_name, anonymous with
  | some _, false => class_.setClasses (dictInsertOne class_.classes (child.name, child))
  | some _, true => class_.setClasses (dictInsertOne class_.classes (child.name, child))
  | none, true => class_.extend child
  | none, false =>
    (class_.setClasses (dictInsertOne class_.classes (child.name, child))).extend child

/-! ## Type manager helpers (modelled from the spec)

`src/c2py/core/wrappers.py` imports `TypeManager`, `is_integer_type`,
`is_string_type`, `is_tuple_type`, `tuple_type_add` and `make_tuple_type`
from `c2py/type_manager.py`, a file of this repository that is not under
`src/`.  These are modelled from the spec (§4.3 return-type combination,
§4.3 rule catalogue) and, for the base-type tables, from the closest in-repo
analogue `src/autocxxpy/generator.py` (`cpp_base_type_to_python_map`,
`cpp_str_bases`). -/

/-- Modelled from the spec: the integer base-type classification used by the
promotion rules ("integer/string base"); the spellings are the entries of
`cpp_base_type_to_python_map` in `src/autocxxpy/generator.py` that map to
Python `int`. -/
def is_integer_type (t : String) : Bool :=
  ["char8_t", "char16_t", "char32_t", "wchar_t", "char", "short", "int", "long",
   "long long", "signed char", "signed short", "signed int", "signed long",
   "signed long long", "unsigned char", "unsigned short", "unsigned int",
   "unsigned long", "unsigned long long"].contains t

/-- Modelled from the spec: the character base types of a string, as in
`cpp_str_bases` of `src/autocxxpy/generator.py`. -/
def cpp_str_bases : List String := ["char", "wchar_t", "char8_t", "char16_t", "char32_t"]

/-- Modelled from the spec: a string type is a pointer to a character base
type ("plain pointer-to-char string type"). -/
def is_string_type (t : String) : Bool :=
  is_pointer_type t && cpp_str_bases.contains (pointer_base t)

/-- Modelled from the spec: a return type already combined into a
tuple-of-results, rendered as `std::tuple<...>`. -/
def is_tuple_type (t : String) : Bool := ("std::tuple<".data).isPrefixOf t.data

/-- Modelled from the spec: appending a result to a non-tuple return type
converts it to a two-element tuple. -/
def make_tuple_type (t : String) (append_type : String) : String :=
  "std::tuple<" ++ t ++ "," ++ append_type ++ ">"

/-- Modelled from the spec: appending to an existing tuple extends it by one,
preserving left-to-right promotion order. -/
def tuple_type_add (t : String) (append_type : String) : String :=
  t.dropRight 1 ++ "," ++ append_type ++ ">"

/-- Modelled from the spec: `TypeManager.resolve_to_basic_type_remove_const`
resolves typedefs to basic types and removes const qualifiers; with no
typedef context (none is populated in the claims) this is the qualifier
canonicalization `remove_cvref`. -/
def resolve_to_basic_type_remove_const (t : String) : String := remove_cvref t

/-! ## Signature transformation engine (`src/c2py/core/wrappers.py`) -/

/-- The closed catalogue of wrapper rule classes (spec §4.3); stands for the
Python classes compared via `wrapper.__class__`. -/
inductive RuleClass : Type where
  | cFunctionCallback
  | stringArray
  | inoutArgument
  | outputArgument
  deriving DecidableEq

/-- `GeneratorVariable`: name and type expression of one argument. -/
structure GeneratorVariable where
  name : String
  type : String
  deriving DecidableEq

/-- `WrapperInfo`: which rule claimed which argument index.  The source
stores the wrapper object; its class (what every comparison uses) is kept. -/
structure WrapperInfo where
  wrapper : RuleClass
  index : Nat
  deriving DecidableEq

/-- `GeneratorFunction`: return type, ordered argument list and the wrapper
annotations, the fields the transformation engine reads and writes. -/
structure GeneratorFunction where
  ret_type : String
  args : List GeneratorVariable
  wrappers : List WrapperInfo
  deriving DecidableEq

/-- `append_as_tuple(t, append_type)` from `wrappers.py`. -/
def append_as_tuple (t : String) (append_type : String) : String :=
  if is_tuple_type t then tuple_type_add t append_type
  else make_tuple_type t append_type

/-- A wrapper rule as `can_wrap_arg` sees it: its class, its
`compatible_wrapper_classes` list, and its `match` predicate (abstract in
`BaseFunctionWrapper`).  Python's falsy `None` fall-through returns are
modelled as `false`. -/
structure FunctionWrapperRule where
  cls : RuleClass
  compatible_wrapper_classes : List RuleClass
  matchFn : GeneratorFunction → Nat → GeneratorVariable → Bool

/-- `BaseFunctionWrapper.is_arg_wrapped`: some annotation claims the index. -/
def is_arg_wrapped (f : GeneratorFunction) (index : Nat) : Bool :=
  f.wrappers.any (fun wi => wi.index == index)

/-- The `[wi.wrapper for wi in f.wrappers if wi.index == index][0]` selection
of `is_compatible_with_wrapped_arg` (first annotation at the index). -/
def first_wrapper_at (f : GeneratorFunction) (index : Nat) : Option WrapperInfo :=
  (f.wrappers.filter (fun wi => wi.index == index)).head?

/-- `BaseFunctionWrapper.is_compatible_with_wrapped_arg`.  When no annotation
exists at the index the source raises `IndexError`; that case is unreachable
under `can_wrap_arg`'s guard and modelled as `false`. -/
def is_compatible_with_wrapped_arg (r : FunctionWrapperRule) (f : GeneratorFunction)
    (index : Nat) : Bool :=
  if r.compatible_wrapper_classes.isEmpty then false
  else
    match first_wrapper_at f index with
    | some wi => r.compatible_wrapper_classes.contains wi.wrapper
    | none => false

/-- `BaseFunctionWrapper.can_wrap_arg`: a claimed, incompatible slot refuses;
otherwise defer to the rule's own `match`.  Out-of-range `f.args[index]`
would raise in Python; the engine only calls with valid indices, modelled
with a default element. -/
def can_wrap_arg (r : FunctionWrapperRule) (f : GeneratorFunction) (index : Nat) : Bool :=
  if is_arg_wrapped f index then
    if !is_compatible_with_wrapped_arg r f index then false
    else r.matchFn f index (f.args.getD index ⟨"", ""⟩)
  else r.matchFn f index (f.args.getD index ⟨"", ""⟩)

/-- `InoutArgumentWrapper.match`.  Only `a.type` is inspected (`f`, `i` are
unused by the body); the `t = resolve...` local is inlined; `return None`
fall-throughs are `false`. -/
def inoutArgumentMatch (_f : GeneratorFunction) (_i : Nat) (a : GeneratorVariable) : Bool :=
  if is_reference_type a.type && !is_const_type a.type then true
  else if is_string_type (resolve_to_basic_type_remove_const a.type) then false
  else if is_pointer_type (resolve_to_basic_type_remove_const a.type) then
    if is_const_type (pointer_base a.type) then false
    else if is_integer_type (pointer_base (resolve_to_basic_type_remove_const a.type)) then true
    else if is_string_type (pointer_base (resolve_to_basic_type_remove_const a.type)) then true
    else false
  else false

/-- `OutputArgumentWrapper.match`: identical to `inoutArgumentMatch` except
that the `is_const_type(pointer_base(a.type))` rejection is absent. -/
def outputArgumentMatch (_f : GeneratorFunction) (_i : Nat) (a : GeneratorVariable) : Bool :=
  if is_reference_type a.type && !is_const_type a.type then true
  else if is_string_type (resolve_to_basic_type_remove_const a.type) then false
  else if is_pointer_type (resolve_to_basic_type_remove_const a.type) then
    if is_integer_type (pointer_base (resolve_to_basic_type_remove_const a.type)) then true
    else if is_string_type (pointer_base (resolve_to_basic_type_remove_const a.type)) then true
    else false
  else false

/-- `InoutArgumentWrapper.wrap`: append the argument's type to the return
tuple, leaving the argument list untouched. -/
def inoutArgumentWrap (f : GeneratorFunction) (index : Nat) : GeneratorFunction :=
  { f with ret_type := append_as_tuple f.ret_type (f.args.getD index ⟨"", ""⟩).type }

/-- `OutputArgumentWrapper.wrap`: append the argument's type to the return
tuple, delete the argument (`args[:index] + args[index+1:]`) and remove the
given annotation (`f.wrappers.remove(wrapper_info)`; Python raises when the
element is absent, which the engine never does — `List.erase` drops the
first occurrence). -/
def outputArgumentWrap (f : GeneratorFunction) (index : Nat)
    (wrapper_info : WrapperInfo) : GeneratorFunction :=
  { f with ret_type := append_as_tuple f.ret_type (f.args.getD index ⟨"", ""⟩).type
           args := f.args.take index ++ f.args.drop (index + 1)
           wrappers := f.wrappers.erase wrapper_info }

/-- The claim sentence of the in/out match condition, transcribed literally:
a non-const reference, or a pointer (after typedef/const resolution) that is
not a plain char-pointer string, whose pointed-to type is not const and whose
base is an integer or string type. -/
def inoutMatchPerSpec (ty : String) : Bool :=
  (is_reference_type ty && !is_const_type ty) ||
  (!is_string_type (resolve_to_basic_type_remove_const ty) &&
    is_pointer_type (resolve_to_basic_type_remove_const ty) &&
    !is_const_type (pointer_base ty) &&
    (is_integer_type (pointer_base (resolve_to_basic_type_remove_const ty)) ||
      is_string_type (pointer_base (resolve_to_basic_type_remove_const ty))))

/-! ## Concrete inputs used by witnesses and counterexamples -/

/-- The annotation recorded by the pure-output rule at index 0. -/
def c1Wi : WrapperInfo := ⟨RuleClass.outputArgument, 0⟩

/-- `void f(int *out)` just before the pure-output `wrap` runs. -/
def c1Func : GeneratorFunction := ⟨"void", [⟨"out", "int *"⟩], [c1Wi]⟩

/-- A rule with an empty `compatible_wrapper_classes` whose own `match`
always succeeds. -/
def c5Rule : FunctionWrapperRule := ⟨RuleClass.outputArgument, [], fun _ _ _ => true⟩

/-- A function whose argument 0 is already claimed by the in/out rule. -/
def c5Func : GeneratorFunction := ⟨"void", [⟨"a", "int"⟩], [⟨RuleClass.inoutArgument, 0⟩]⟩

/-- An enclosing class with no members yet. -/
def c7Class : CxxClass := .mk "Outer" [] [] [] [] [] [] [] [] [] none false

/-- A named union `U`, scoped by a field `fld` of the enclosing class. -/
def c7Union : CxxClass := .mk "U" [] [] [] [] [] [] [] [] [] none false

/-- Namespace `ns` at its first opening: one enum, typedef, variable and
function. -/
def c8NsA : CxxClass :=
  .mk "ns" [("E1", ⟨"E1", "int", [], false⟩)] [("T1", ⟨"T1", "int"⟩)] [] []
    [("V1", ⟨"V1", "int", false, false, none⟩)] [("F1", [⟨"F1", "void", [], "__cdecl"⟩])]
    [] [] [] none false

/-- Namespace `ns` reopened with members whose names are disjoint from
`c8NsA`'s. -/
def c8NsB : CxxClass :=
  .mk "ns" [("E2", ⟨"E2", "int", [], false⟩)] [("T2", ⟨"T2", "char"⟩)] [] []
    [("V2", ⟨"V2", "char", false, false, none⟩)] [("F2", [⟨"F2", "int", [], "__cdecl"⟩])]
    [] [] [] none false

/-! ## Dictionary lemmas -/

theorem keyMem_false_iff {α : Type} (k : String) (d : List (String × α)) :
    keyMem k d = false ↔ ∀ p ∈ d, p.1 ≠ k := by
  simp [keyMem]

theorem dictInsertOne_append {α : Type} (d : List (String × α)) (kv : String × α)
    (h : keyMem kv.1 d = false) : dictInsertOne d kv = d ++ [kv] := by
  induction d with
  | nil => rfl
  | cons p rest ih =>
    rw [keyMem_false_iff] at h
    have h1 : (p.1 == kv.1) = false := by
      simpa using h p (List.mem_cons_self p rest)
    have h2 : keyMem kv.1 rest = false := by
      rw [keyMem_false_iff]
      exact fun q hq => h q (List.mem_cons_of_mem p hq)
    simp [dictInsertOne, h1, ih h2]

theorem dictUpdate_append {α : Type} (other : List (String × α)) :
    ∀ d : List (String × α), nodupKeysB other = true → disjointKeysB other d = true →
      dictUpdate d other = d ++ other := by
  induction other with
  | nil => intro d _ _; simp [dictUpdate]
  | cons kv rest ih =>
    intro d hnd hdis
    simp only [nodupKeysB, Bool.and_eq_true, Bool.not_eq_true'] at hnd
    simp only [disjointKeysB, List.all_cons, Bool.and_eq_true, Bool.not_eq_true'] at hdis
    have hins : dictInsertOne d kv = d ++ [kv] := dictInsertOne_append d kv hdis.1
    have hstep : dictUpdate d (kv :: rest) = dictUpdate (d ++ [kv]) rest := by
      simp [dictUpdate, hins]
    have hdis2 : disjointKeysB rest (d ++ [kv]) = true := by
      simp only [disjointKeysB, List.all_eq_true] at hdis ⊢
      intro p hp
      have h1 : keyMem p.1 d = false := by simpa using hdis.2 p hp
      have h2 : p.1 ≠ kv.1 := by
        have := (keyMem_false_iff kv.1 rest).mp hnd.1 p hp
        simpa using this
      simp only [Bool.not_eq_true', keyMem_false_iff] at h1 ⊢
      intro q hq
      rcases List.mem_append.mp hq with hq1 | hq2
      · exact h1 q hq1
      · have : q = kv := by simpa using hq2
        subst this
        exact fun he => h2 he.symm
    rw [hstep, ih (d ++ [kv]) hnd.2 hdis2]
    simp

theorem dictLookup_insert_self {α : Type} (d : List (String × α)) (k : String) (v : α) :
    dictLookup k (dictInsertOne d (k, v)) = some v := by
  induction d with
  | nil => simp [dictInsertOne, dictLookup, List.find?]
  | cons p rest ih =>
    by_cases h : p.1 = k
    · simp [dictInsertOne, dictLookup, List.find?, h]
    · have hb : (p.1 == k) = false := by simpa using h
      simp only [dictInsertOne, hb, if_false, dictLookup, List.find?, hb] at ih ⊢
      exact ih

theorem dictLookup_insert_of_ne {α : Type} (d : List (String × α)) (k k' : String) (v : α)
    (h : (k' == k) = false) : dictLookup k' (dictInsertOne d (k, v)) = dictLookup k' d := by
  have hne : k' ≠ k := by simpa using h
  induction d with
  | nil =>
    have hb : (k == k') = false := by simpa using fun he => hne he.symm
    simp [dictInsertOne, dictLookup, List.find?, hb]
  | cons p rest ih =>
    by_cases hp : p.1 = k
    · have hb : (k == k') = false := by simpa using fun he => hne he.symm
      simp [dictInsertOne, dictLookup, List.find?, hp, hb]
    · have hb : (p.1 == k) = false := by simpa using hp
      by_cases hpk : p.1 = k'
      · have hstep : dictInsertOne (p :: rest) (k, v) = p :: dictInsertOne rest (k, v) := by
          simp [dictInsertOne, hb]
        rw [hstep]
        simp [dictLookup, List.find?, hpk]
      · have hb' : (p.1 == k') = false := by simpa using hpk
        simp only [dictInsertOne, hb, if_false, dictLookup, List.find?, hb',
          Bool.false_eq_true, if_false] at ih ⊢
        exact ih

/-! ## Claim theorems -/

/-- C1 (counterexample): for `void f(int *out)`, `OutputArgumentWrapper.wrap`
at index 0 does empty the argument list, but the resulting return type is not
`int` — `append_as_tuple` combines the original `void` with the argument's
declarator `int *` into a tuple. -/
theorem c1_pure_output_wrap_counterexample :
    (outputArgumentWrap c1Func 0 c1Wi).args = [] ∧
    (outputArgumentWrap c1Func 0 c1Wi).ret_type ≠ "int" := by
  decide

/-- C1 (amended): for `void f(int *out)`, pure-output `wrap` at index 0
yields an empty argument list, clears the annotation, and sets the return
type to the two-element tuple of the original return type and the argument's
type, `std::tuple<void,int *>` (the bare `int` of the claim only appears
downstream, not in `wrap`'s own result). -/
theorem c1_pure_output_wrap_amended :
    (outputArgumentWrap c1Func 0 c1Wi).ret_type = "std::tuple<void,int *>" ∧
    (outputArgumentWrap c1Func 0 c1Wi).args = [] ∧
    (outputArgumentWrap c1Func 0 c1Wi).wrappers = [] := by
  decide

/-- C4 (amended): the in/out and pure-output match predicates agree on every
argument whose pointed-to type `pointer_base(a.type)` is not const; the two
predicates differ only on the const-pointed-to case, which
`InoutArgumentWrapper.match` rejects and `OutputArgumentWrapper.match` does
not examine. -/
theorem c4_match_agreement (f : GeneratorFunction) (i : Nat) (a : GeneratorVariable)
    (h : is_const_type (pointer_base a.type) = false) :
    inoutArgumentMatch f i a = outputArgumentMatch f i a := by
  unfold inoutArgumentMatch outputArgumentMatch
  simp [h]

theorem c4_match_agreement_witness :
    is_const_type (pointer_base "int *") = false ∧
    inoutArgumentMatch c1Func 0 ⟨"a", "int *"⟩ = outputArgumentMatch c1Func 0 ⟨"a", "int *"⟩ :=
  ⟨by decide, c4_match_agreement c1Func 0 ⟨"a", "int *"⟩ (by decide)⟩

/-- C4 (counterexample): an argument of type `"conconst st int *"` (whose
`remove_cvref` image is `"const int *"`, so `pointer_base` of the raw string
is the const `"const int"`) is rejected by `InoutArgumentWrapper.match` but
accepted by `OutputArgumentWrapper.match` — the two predicates are not
extensionally equal. -/
theorem c4_match_counterexample :
    inoutArgumentMatch c1Func 0 ⟨"x", "conconst st int *"⟩ = false ∧
    outputArgumentMatch c1Func 0 ⟨"x", "conconst st int *"⟩ = true := by
  decide

/-- C5: once some rule has recorded a `WrapperInfo` at index `i`, any rule
whose `compatible_wrapper_classes` does not list the annotating rule's class
(in particular any rule with an empty list) gets `can_wrap_arg = false` for
that slot. -/
theorem c5_frozen_slot (r : FunctionWrapperRule) (f : GeneratorFunction) (i : Nat)
    (hw : is_arg_wrapped f i = true)
    (hc : ∀ wi, first_wrapper_at f i = some wi →
      r.compatible_wrapper_classes.contains wi.wrapper = false) :
    can_wrap_arg r f i = false := by
  have hcomp : is_compatible_with_wrapped_arg r f i = false := by
    unfold is_compatible_with_wrapped_arg
    cases he : r.compatible_wrapper_classes.isEmpty with
    | true => simp
    | false =>
      simp only [Bool.false_eq_true, if_false]
      cases hh : first_wrapper_at f i with
      | none => rfl
      | some wi => exact hc wi hh
  simp [can_wrap_arg, hw, hcomp]

theorem c5_frozen_slot_witness :
    is_arg_wrapped c5Func 0 = true ∧ can_wrap_arg c5Rule c5Func 0 = false :=
  ⟨by decide, c5_frozen_slot c5Rule c5Func 0 (by decide) (fun _ _ => rfl)⟩

/-- C6: `InoutArgumentWrapper.match` returns a truthy value exactly on the
claim's condition: a non-const reference, or a (typedef/const-resolved)
pointer that is not a plain char-pointer string type, whose pointed-to type
is not const and whose base type is an integer or string type. -/
theorem c6_inout_match_condition (f : GeneratorFunction) (i : Nat) (a : GeneratorVariable) :
    inoutArgumentMatch f i a = inoutMatchPerSpec a.type := by
  unfold inoutArgumentMatch inoutMatchPerSpec
  generalize is_reference_type a.type = b1
  generalize is_const_type a.type = b2
  generalize resolve_to_basic_type_remove_const a.type = rt
  generalize is_string_type rt = b3
  generalize is_pointer_type rt = b4
  generalize is_const_type (pointer_base a.type) = b5
  generalize is_integer_type (pointer_base rt) = b6
  generalize is_string_type (pointer_base rt) = b7
  cases b1 <;> cases b2 <;> cases b3 <;> cases b4 <;> cases b5 <;> cases b6 <;> cases b7 <;> rfl

/-- C7 (amended): populating a scoped, non-anonymous union keeps it as a
nested member registered under the union's own name, leaves every other
member map of the enclosing class unchanged, and does not additionally
register it under the referencing field's name (lookups at any other key are
unchanged). -/
theorem c7_scoped_union_amended (fld : String) (class_ : CxxClass) (child : CxxClass) :
    dictLookup child.name (processUnionDecl (some fld) false class_ child).classes = some child ∧
    (∀ k, (k == child.name) = false →
      dictLookup k (processUnionDecl (some fld) false class_ child).classes =
        dictLookup k class_.classes) ∧
    (processUnionDecl (some fld) false class_ child).enums = class_.enums ∧
    (processUnionDecl (some fld) false class_ child).vars = class_.vars ∧
    (processUnionDecl (some fld) false class_ child).typedefs = class_.typedefs ∧
    (processUnionDecl (some fld) false class_ child).functions = class_.functions ∧
    (processUnionDecl (some fld) false class_ child).namespaces = class_.namespaces ∧
    (processUnionDecl (some fld) false class_ child).name = class_.name := by
  cases class_ with
  | mk n e t c tc v f ns sup cons des poly =>
    refine ⟨?_, ?_, rfl, rfl, rfl, rfl, rfl, rfl⟩
    · exact dictLookup_insert_self c child.name child
    · intro k hk
      exact dictLookup_insert_of_ne c child.name k child hk

theorem c7_scoped_union_witness :
    dictLookup "U" (processUnionDecl (some "fld") false c7Class c7Union).classes = some c7Union ∧
    dictLookup "fld" (processUnionDecl (some "fld") false c7Class c7Union).classes =
      dictLookup "fld" c7Class.classes :=
  ⟨(c7_scoped_union_amended "fld" c7Class c7Union).1,
   (c7_scoped_union_amended "fld" c7Class c7Union).2.1 "fld" (by decide)⟩

/-- C7 (counterexample): for a scoped (`scope_name = "fld"`) non-anonymous
union named `U`, the population step registers the union under `"U"` only;
no entry appears under the referencing field's name `"fld"`, contradicting
the claimed double registration. -/
theorem c7_scoped_union_counterexample :
    dictLookup "fld" (processUnionDecl (some "fld") false c7Class c7Union).classes = none ∧
    dictLookup "U" (processUnionDecl (some "fld") false c7Class c7Union).classes =
      some c7Union :=
  ⟨rfl, rfl⟩

/-- C8: merging a reopened namespace with pairwise-disjoint member names via
`Namespace.extend` makes each of the six member maps (enums, typedefs,
classes, variables, functions, sub-namespaces) the union — here, the exact
concatenation — of the two originals, losing and replacing nothing, and
keeps the namespace's name. -/
theorem c8_namespace_extend_union (a b : CxxClass)
    (_hname : a.name = b.name)
    (h1 : nodupKeysB b.enums = true) (h2 : nodupKeysB b.typedefs = true)
    (h3 : nodupKeysB b.classes = true) (h4 : nodupKeysB b.vars = true)
    (h5 : nodupKeysB b.functions = true) (h6 : nodupKeysB b.namespaces = true)
    (d1 : disjointKeysB b.enums a.enums = true)
    (d2 : disjointKeysB b.typedefs a.typedefs = true)
    (d3 : disjointKeysB b.classes a.classes = true)
    (d4 : disjointKeysB b.vars a.vars = true)
    (d5 : disjointKeysB b.functions a.functions = true)
    (d6 : disjointKeysB b.namespaces a.namespaces = true) :
    (a.extend b).enums = a.enums ++ b.enums ∧
    (a.extend b).typedefs = a.typedefs ++ b.typedefs ∧
    (a.extend b).classes = a.classes ++ b.classes ∧
    (a.extend b).vars = a.vars ++ b.vars ∧
    (a.extend b).functions = a.functions ++ b.functions ∧
    (a.extend b).namespaces = a.namespaces ++ b.namespaces ∧
    (a.extend b).name = a.name := by
  cases a with
  | mk n e t c tc v f ns sup cons des poly =>
    exact ⟨dictUpdate_append b.enums e h1 d1, dictUpdate_append b.typedefs t h2 d2,
      dictUpdate_append b.classes c h3 d3, dictUpdate_append b.vars v h4 d4,
      dictUpdate_append b.functions f h5 d5, dictUpdate_append b.namespaces ns h6 d6, rfl⟩

theorem c8_namespace_extend_union_witness :
    (c8NsA.extend c8NsB).enums = c8NsA.enums ++ c8NsB.enums ∧
    (c8NsA.extend c8NsB).functions = c8NsA.functions ++ c8NsB.functions ∧
    (c8NsA.extend c8NsB).name = c8NsA.name := by
  have h := c8_namespace_extend_union c8NsA c8NsB rfl (by decide) (by decide) (by decide)
    (by decide) (by decide) (by decide) (by decide) (by decide) (by decide) (by decide)
    (by decide) (by decide)
  exact ⟨h.1, h.2.2.2.2.1, h.2.2.2.2.2.2⟩

/-- C10: every symbol sitting under a parent chain that ends at the root
namespace (whose name is the empty string) has a fully-qualified name that
begins with the `::` separator contributed by the unnamed root. -/
theorem c10_full_name_leading_sep (p : CxxSymbol) (n : String)
    (h : p.rootedAtEmptyB = true) :
    ∃ r, (CxxSymbol.child p n).full_name = "::" ++ r := by
  induction p generalizing n with
  | root m =>
    have hm : m = "" := by
      simpa [CxxSymbol.rootedAtEmptyB] using h
    subst hm
    exact ⟨n, rfl⟩
  | child q m ih =>
    have hq : q.rootedAtEmptyB = true := h
    obtain ⟨r, hr⟩ := ih m hq
    refine ⟨r ++ "::" ++ n, ?_⟩
    show (CxxSymbol.child q m).full_name ++ "::" ++ n = "::" ++ (r ++ "::" ++ n)
    rw [hr]
    simp [String.append_assoc]

theorem c10_full_name_leading_sep_witness :
    (CxxSymbol.root "").rootedAtEmptyB = true ∧
    (∃ r, (CxxSymbol.child (CxxSymbol.root "") "C").full_name = "::" ++ r) ∧
    (CxxSymbol.child (CxxSymbol.root "") "C").full_name = "::C" :=
  ⟨by decide, c10_full_name_leading_sep (CxxSymbol.root "") "C" (by decide), by decide⟩

/-! ## String-level lemmas for the type-algebra claims -/

theorem isPrefixOf_append_left (a : List Char) (b : List Char) :
    ∀ l : List Char, (a ++ b).isPrefixOf l = true → a.isPrefixOf l = true := by
  induction a with
  | nil => intro l _; cases l <;> rfl
  | cons x xs ih =>
    intro l h
    cases l with
    | nil => simp [List.isPrefixOf] at h
    | cons y ys =>
      simp only [List.cons_append, List.isPrefixOf, Bool.and_eq_true] at h ⊢
      exact ⟨h.1, ih ys h.2⟩

theorem hasSub_single_iff (c : Char) :
    ∀ l : List Char, hasSub [c] l = true ↔ c ∈ l := by
  intro l
  induction l with
  | nil => simp [hasSub, List.isPrefixOf]
  | cons x rest ih =>
    simp only [hasSub, List.isPrefixOf, Bool.and_true, Bool.or_eq_true, List.mem_cons, ih]
    constructor
    · rintro (h | h)
      · exact Or.inl (eq_of_beq h)
      · exact Or.inr h
    · rintro (h | h)
      · exact Or.inl (by simp [h])
      · exact Or.inr h

theorem removeOccFuel_eq_self (pat : List Char) :
    ∀ (fuel : Nat) (l : List Char), l.length ≤ fuel → hasSub pat l = false →
      removeOccFuel pat fuel l = l := by
  intro fuel
  induction fuel with
  | zero =>
    intro l hl _
    cases l with
    | nil => rfl
    | cons c r => simp at hl
  | succ fuel ih =>
    intro l hl hsub
    cases l with
    | nil => rfl
    | cons c r =>
      have hparts : pat.isPrefixOf (c :: r) = false ∧ hasSub pat r = false := by
        have : (pat.isPrefixOf (c :: r) || hasSub pat r) = false := hsub
        simpa using this
      simp only [removeOccFuel, hparts.1, Bool.false_eq_true, if_false, List.cons.injEq,
        true_and]
      have hr : r.length ≤ fuel := by
        simp only [List.length_cons] at hl
        omega
      exact ih r hr hparts.2

theorem removeOcc_eq_self (pat : List Char) (l : List Char) (h : hasSub pat l = false) :
    removeOcc pat l = l :=
  removeOccFuel_eq_self pat l.length l (Nat.le_refl _) h

theorem not_mem_removeOccFuel_single (c : Char) :
    ∀ (fuel : Nat) (l : List Char), l.length ≤ fuel → c ∉ removeOccFuel [c] fuel l := by
  intro fuel
  induction fuel with
  | zero =>
    intro l hl
    cases l with
    | nil => simp [removeOccFuel]
    | cons x r => simp at hl
  | succ fuel ih =>
    intro l hl
    cases l with
    | nil => simp [removeOccFuel]
    | cons x r =>
      have hr : r.length ≤ fuel := by
        simp only [List.length_cons] at hl
        omega
      cases hp : ([c] : List Char).isPrefixOf (x :: r) with
      | true =>
        have hdrop : (x :: r).drop ([c] : List Char).length = r := by simp
        simp only [removeOccFuel, hp, if_true, hdrop]
        exact ih r hr
      | false =>
        have hne : c ≠ x := by
          intro he
          subst he
          simp [List.isPrefixOf] at hp
        simp only [removeOccFuel, hp, Bool.false_eq_true, if_false, List.mem_cons]
        rintro (h | h)
        · exact hne h
        · exact ih r hr h

theorem not_mem_removeOcc_single (c : Char) (l : List Char) : c ∉ removeOcc [c] l :=
  not_mem_removeOccFuel_single c l.length l (Nat.le_refl _)

theorem dropWhileIdem (p : Char → Bool) :
    ∀ l : List Char, (l.dropWhile p).dropWhile p = l.dropWhile p := by
  intro l
  induction l with
  | nil => rfl
  | cons x r ih =>
    cases hx : p x with
    | true => simpa [List.dropWhile_cons, hx] using ih
    | false => simp [List.dropWhile_cons, hx]

theorem dropWhile_exists_prepend (p : Char → Bool) :
    ∀ l : List Char, ∃ s, s ++ l.dropWhile p = l := by
  intro l
  induction l with
  | nil => exact ⟨[], rfl⟩
  | cons x r ih =>
    cases hx : p x with
    | true =>
      obtain ⟨s, hs⟩ := ih
      exact ⟨x :: s, by simp [List.dropWhile_cons, hx, hs]⟩
    | false => exact ⟨[], by simp [List.dropWhile_cons, hx]⟩

theorem trimR_exists_append (l : List Char) : ∃ t, trimR l ++ t = l := by
  obtain ⟨s, hs⟩ := dropWhile_exists_prepend wsB l.reverse
  refine ⟨s.reverse, ?_⟩
  calc (l.reverse.dropWhile wsB).reverse ++ s.reverse
      = (s ++ l.reverse.dropWhile wsB).reverse := (List.reverse_append _ _).symm
    _ = l.reverse.reverse := by rw [hs]
    _ = l := List.reverse_reverse l

theorem trimR_idem (l : List Char) : trimR (trimR l) = trimR l := by
  show ((((l.reverse.dropWhile wsB).reverse).reverse).dropWhile wsB).reverse
      = (l.reverse.dropWhile wsB).reverse
  rw [List.reverse_reverse, dropWhileIdem]

theorem trimL_head_false : ∀ (l : List Char) (c : Char) (r : List Char),
    trimL l = c :: r → wsB c = false := by
  intro l
  induction l with
  | nil => intro c r h; simp [trimL] at h
  | cons x rest ih =>
    intro c r h
    simp only [trimL, List.dropWhile_cons] at h
    cases hx : wsB x with
    | true =>
      rw [hx] at h
      simp only [if_true] at h
      exact ih c r h
    | false =>
      rw [hx] at h
      simp only [Bool.false_eq_true, if_false, List.cons.injEq] at h
      rw [← h.1]
      exact hx

theorem trimL_trimR_trimL (l : List Char) : trimL (trimR (trimL l)) = trimR (trimL l) := by
  cases h : trimR (trimL l) with
  | nil => rfl
  | cons c r =>
    obtain ⟨tl, htl⟩ := trimR_exists_append (trimL l)
    rw [h] at htl
    have hl : trimL l = c :: (r ++ tl) := by
      rw [← htl]
      rfl
    have hc : wsB c = false := trimL_head_false l c (r ++ tl) hl
    simp [trimL, List.dropWhile_cons, hc]

theorem pstrip_idem (l : List Char) : pstrip (pstrip l) = pstrip l := by
  show trimR (trimL (trimR (trimL l))) = trimR (trimL l)
  rw [trimL_trimR_trimL, trimR_idem]

theorem mem_of_mem_dropWhileWs {x : Char} :
    ∀ l : List Char, x ∈ l.dropWhile wsB → x ∈ l := by
  intro l h
  obtain ⟨s, hs⟩ := dropWhile_exists_prepend wsB l
  rw [← hs]
  exact List.mem_append_right s h

theorem mem_of_mem_trimR {x : Char} (l : List Char) (h : x ∈ trimR l) : x ∈ l := by
  obtain ⟨t, ht⟩ := trimR_exists_append l
  rw [← ht]
  exact List.mem_append_left t h

theorem mem_of_mem_pstrip {x : Char} (l : List Char) (h : x ∈ pstrip l) : x ∈ l :=
  mem_of_mem_dropWhileWs l (mem_of_mem_trimR (trimL l) h)

theorem amp_not_mem_rcvAux (l : List Char) : '&' ∉ rcvAux l := by
  intro hmem
  have h1 : '&' ∈ removeOcc ("&".data) (removeOcc ("volatile ".data)
      (removeOcc ("const ".data) (rcvSuffixTrim l))) := mem_of_mem_pstrip _ hmem
  exact not_mem_removeOcc_single '&' _ h1

theorem pstrip_rcvAux (l : List Char) : pstrip (rcvAux l) = rcvAux l :=
  pstrip_idem _

theorem rindexChar_eq_none_iff (c : Char) :
    ∀ l : List Char, rindexChar c l = none ↔ l.contains c = false := by
  intro l
  induction l with
  | nil => simp [rindexChar]
  | cons x rest ih =>
    simp only [rindexChar]
    cases h : rindexChar c rest with
    | some j =>
      have hrest : rest.contains c = true := by
        cases hc : rest.contains c
        · rw [ih.mpr hc] at h; cases h
        · rfl
      have hmem : c ∈ rest := List.elem_iff.mp hrest
      simp [List.contains_cons, hrest, hmem]
    | none =>
      have hrest : rest.contains c = false := ih.mp h
      have hnmem : c ∉ rest := fun hm => by
        have hco : rest.contains c = true := List.elem_iff.mpr hm
        rw [hco] at hrest
        cases hrest
      cases hx : x == c with
      | true =>
        have hcx : c = x := (eq_of_beq hx).symm
        simp [List.contains_cons, hcx]
      | false =>
        have hcx : c ≠ x := fun he => by
          subst he
          simp at hx
        simp [List.contains_cons, hx, hrest, hcx, hnmem]

/-- If a list ends with `" const"` it also ends with `"const"`. -/
theorem isSuffixOf_const_of_space_const (s : List Char)
    (h : (" const".data).isSuffixOf s = true) : ("const".data).isSuffixOf s = true := by
  simp only [List.isSuffixOf] at h ⊢
  have hrev : (" const".data).reverse = ("const".data).reverse ++ [' '] := by decide
  rw [hrev] at h
  exact isPrefixOf_append_left _ [' '] s.reverse h

/-- C9 (amended): `remove_cvref` strips every reference sigil, so
`is_reference_type` applied after `remove_cvref` is always false; the
type-algebra predicates are therefore not qualifier-insensitive in general —
normalization by `remove_cvref` changes, rather than preserves, the verdicts
of the predicates that read the raw string (`is_reference_type`,
`is_array_type`, `is_const_type`); only `is_pointer_type` applies
`remove_cvref` internally. -/
theorem c9_remove_cvref_kills_reference (t : String) :
    is_reference_type (remove_cvref t) = false := by
  cases hh : is_reference_type (remove_cvref t) with
  | false => rfl
  | true =>
    exfalso
    unfold is_reference_type at hh
    have hd : ("&".data) = ['&'] := by decide
    rw [hd] at hh
    exact amp_not_mem_rcvAux t.data ((hasSub_single_iff '&' _).mp hh)

/-- C9 (counterexample): at `t = "int &"` the predicate verdict changes under
`remove_cvref` normalization (`is_reference_type` flips from true to false),
refuting `is_reference_type(t) == is_reference_type(remove_cvref(t))`. -/
theorem c9_qualifier_insensitive_counterexample :
    is_reference_type "int &" = true ∧
    is_reference_type (remove_cvref "int &") = false ∧
    is_array_type "const std::vector<int>" = false ∧
    is_array_type (remove_cvref "const std::vector<int>") = true := by
  decide

/-- C3 (amended): `remove_cvref` is idempotent on every string whose first
application leaves no residual qualifier text — no trailing `"const"` and no
`"const "` or `"volatile "` substring in the result.  (Stacked qualifiers
such as `"int const&"` leave a trailing `"const"` after one application and
violate unconditional idempotency.) -/
theorem c3_remove_cvref_idem_conditional (t : String)
    (h1 : ("const".data).isSuffixOf (remove_cvref t).data = false)
    (h2 : hasSub ("const ".data) (remove_cvref t).data = false)
    (h3 : hasSub ("volatile ".data) (remove_cvref t).data = false) :
    remove_cvref (remove_cvref t) = remove_cvref t := by
  have h0 : (" const".data).isSuffixOf (remove_cvref t).data = false := by
    cases hsf : (" const".data).isSuffixOf (remove_cvref t).data with
    | false => rfl
    | true =>
      rw [isSuffixOf_const_of_space_const _ hsf] at h1
      cases h1
  have hamp : hasSub ("&".data) (remove_cvref t).data = false := by
    cases hh : hasSub ("&".data) (remove_cvref t).data with
    | false => rfl
    | true =>
      exfalso
      have hd : ("&".data) = ['&'] := by decide
      rw [hd] at hh
      exact amp_not_mem_rcvAux t.data ((hasSub_single_iff '&' _).mp hh)
  have htrim : rcvSuffixTrim (remove_cvref t).data = (remove_cvref t).data := by
    simp only [rcvSuffixTrim, h0, h1, Bool.false_eq_true, if_false]
  have key : rcvAux (remove_cvref t).data = (remove_cvref t).data := by
    unfold rcvAux
    rw [htrim, removeOcc_eq_self _ _ h2, removeOcc_eq_self _ _ h3,
      removeOcc_eq_self _ _ hamp]
    exact pstrip_rcvAux t.data
  calc remove_cvref (remove_cvref t) = ⟨rcvAux (remove_cvref t).data⟩ := rfl
    _ = ⟨(remove_cvref t).data⟩ := by rw [key]
    _ = remove_cvref t := rfl

theorem c3_remove_cvref_idem_conditional_witness :
    ("const".data).isSuffixOf (remove_cvref "const int &").data = false ∧
    hasSub ("const ".data) (remove_cvref "const int &").data = false ∧
    hasSub ("volatile ".data) (remove_cvref "const int &").data = false ∧
    remove_cvref (remove_cvref "const int &") = remove_cvref "const int &" :=
  ⟨by decide, by decide, by decide,
   c3_remove_cvref_idem_conditional "const int &" (by decide) (by decide) (by decide)⟩

/-- C3 (counterexample): `remove_cvref("int const&") = "int const"` but a
second application gives `"int"`, so `remove_cvref` is not idempotent on all
declarator strings. -/
theorem c3_remove_cvref_not_idempotent_counterexample :
    remove_cvref "int const&" = "int const" ∧
    remove_cvref (remove_cvref "int const&") = "int" ∧
    remove_cvref (remove_cvref "int const&") ≠ remove_cvref "int const&" := by
  decide

/-- C2 (amended): the predicates and one-level decompositions of the type
algebra are total functions of their string input (they are plain Lean
functions here), with one family of exceptions contradicting the claim:
`array_base` (and with it `array_count_str`/`array_count`) raises
`ValueError` — exactly when the input is not container sugar and contains no
`[` — instead of returning a "not matched" value, as its own docstring
documents. -/
theorem c2_array_base_error_iff (t : String) :
    exceptIsError (array_base t) = (!is_std_vector t && !(t.data.contains '[')) := by
  unfold array_base
  cases hv : is_std_vector t with
  | true => simp [exceptIsError]
  | false =>
    cases hr : rindexChar '[' t.data with
    | some i =>
      have hc : t.data.contains '[' = true := by
        cases hcc : t.data.contains '['
        · rw [(rindexChar_eq_none_iff '[' t.data).mpr hcc] at hr
          cases hr
        · rfl
      have hm : '[' ∈ t.data := List.elem_iff.mp hc
      simp [exceptIsError, hc, hm]
    | none =>
      have hc : t.data.contains '[' = false := (rindexChar_eq_none_iff '[' t.data).mp hr
      have hm : '[' ∉ t.data := fun h => by
        have hco : t.data.contains '[' = true := List.elem_iff.mpr h
        rw [hco] at hc
        cases hc
      simp [exceptIsError, hc, hm]

/-- C2 (counterexample): `array_base("int")` raises `ValueError` (no `[` and
not container sugar), and `array_count("int[n]")` raises on the non-numeric
count — the type-algebra operations are not all raise-free. -/
theorem c2_array_base_raises_counterexample :
    array_base "int" = Except.error "ValueError" ∧
    array_count "int[n]" = Except.error "ValueError" :=
  ⟨rfl, rfl⟩

end C2py
